import Mathlib

/-!
Laser engraver: raster compiler, code emitter and device session.

A shallow embedding of `semi_gcode_generator`, `gcode_generator`, `generate_gcode`
and the device loop of `MainWindow::print` from `src/mainwindow.cpp`, with the
properties of the specification stated over it.

Conventions of the embedding.

* `i16`, `u8` and `u32` values are integers; a `static_cast` to a narrower type is
  the explicit reduction `to_i16` or `to_u8`. The aliases come from a header that is
  not among the sources and are read as the fixed-width types of those names.
* `std::vector<gcode>` is a list; `reserve` only changes capacity and is not
  modelled, and allocation is assumed to succeed.
* The pixel pointer `data` is the list of pixels it points to. A read past the end
  of that list is undefined in the source and makes the embedding return `none`.
* The `size_t` counters `x`, `y` and `index` never exceed `w`, `h` and the buffer
  length, so they are natural numbers without wrap-around.
* The atomic progress cell is the list of the values stored to it, oldest first,
  taken as exact fractions.
* `std::ostream` is the text written so far; `std::endl` is a line break.
* `QSerialPort` is not part of the repository: it is an explicit channel state
  following the documented behaviour of the Qt class (see `QSerialPort`).
-/

namespace semi_gcodes

/-- The variant `semi_gcodes::gcode`; the numeric fields are `i16` in the source. -/
inductive gcode where
  | monostate
  | laser_on
  | laser_off
  | home
  | dwell (delay : Int)
  | move (x : Int) (y : Int)
  | power (duty : Int)
  deriving DecidableEq, Repr

/-- The sequence type `semi_gcodes::gcodes`. -/
abbrev gcodes := List gcode

end semi_gcodes

open semi_gcodes

/-- Modelled from the spec: the alias `i16` is declared in `externals/common/types.hpp`,
which is not among the sources; section 3 gives it as the 16-bit signed integer. A
`static_cast` to it reduces modulo `2^16` into `[-32768, 32767]`. -/
def to_i16 (v : Int) : Int :=
  let m := v % 65536
  if m < 32768 then m else m - 65536

/-- Modelled from the spec: the alias `u8` is declared in `externals/common/types.hpp`,
which is not among the sources; section 4.1 gives a channel as eight bits. A
`static_cast` to it keeps the low eight bits. -/
def to_u8 (v : Nat) : Nat := v % 256

/-- The duty computed for one pixel (lines 186 to 191): the three `u8` channels are
promoted to `int`, subtracted from 1000, and the result is cast to `i16`. -/
def pixel_duty (color : Nat) : Int :=
  let r := to_u8 (color >>> 0x0f)
  let g := to_u8 (color >>> 0x08)
  let b := to_u8 color
  to_i16 (1000 - (r : Int) - (g : Int) - (b : Int))

/-- The four instructions appended for the pixel at column `x`, row `y`
(lines 190 to 193). -/
def pixel_group (x y color : Nat) : gcodes :=
  [gcode.move (to_i16 x) (to_i16 y), gcode.power (pixel_duty color), gcode.dwell 1,
    gcode.power 0]

/-- The variables of `semi_gcode_generator` that change while it runs: the vector
`ret`, the read cursor `index`, and the values stored to `progress` so far. -/
structure gen_state where
  ret : gcodes
  index : Nat
  progress : List ℚ
  deriving DecidableEq

/-- The inner loop `for (x = 0; x < w; ++x)` of row `y`; the first argument is the
number of iterations left, `w - x`. Reading `data[index++]` past the end gives
`none`. -/
def pixel_loop (data : List Nat) (y : Nat) : Nat → Nat → gen_state → Option gen_state
  | 0, _, st => some st
  | n + 1, x, st =>
    match data[st.index]? with
    | none => none
    | some color =>
      pixel_loop data y n (x + 1)
        { st with ret := st.ret ++ pixel_group x y color, index := st.index + 1 }

/-- The outer loop `for (y = 0; y < h; ++y)`; the first numeric argument is the number
of iterations left, `h - y`. After each row the value `y / h` is stored to
`progress`. -/
def row_loop (data : List Nat) (w h : Nat) : Nat → Nat → gen_state → Option gen_state
  | 0, _, st => some st
  | n + 1, y, st =>
    match pixel_loop data y w 0 st with
    | none => none
    | some st1 =>
      row_loop data w h n (y + 1)
        { st1 with progress := st1.progress ++ [(y : ℚ) / (h : ℚ)] }

/-- The function `semi_gcode_generator` (lines 162 to 205). The result carries the
returned vector `ret`, the final `index` (the number of pixels read) and the values
stored to `progress`. -/
def semi_gcode_generator (data : List Nat) (w h : Nat) : Option gen_state :=
  let st0 : gen_state :=
    { ret := [gcode.home, gcode.power 0, gcode.laser_on], index := 0, progress := [0] }
  match row_loop data w h h 0 st0 with
  | none => none
  | some st1 =>
    some { st1 with
           ret := st1.ret ++ [gcode.power 0, gcode.laser_off, gcode.home]
           progress := st1.progress ++ [1] }

/-- The visitor class `gcode_generator`: its state is the text written to `m_stream`.
The precision factor only enters through the rendering of a real number, which is
the parameter `fmt` of `visit`. -/
structure gcode_generator where
  m_stream : String

/-- The overloads of `gcode_generator::operator()` (lines 217 to 223). `fmt v` is the
text that `operator<<` writes for `static_cast<double>(v) / m_precision`. -/
def gcode_generator.visit (fmt : Int → String) (v : gcode_generator) :
    gcode → gcode_generator
  | gcode.dwell delay => { m_stream := v.m_stream ++ "G4 P0.00" ++ toString delay ++ "\n" }
  | gcode.home => { m_stream := v.m_stream ++ "G0 X0 Y0" ++ "\n" }
  | gcode.laser_off => { m_stream := v.m_stream ++ "M5" ++ "\n" }
  | gcode.laser_on => { m_stream := v.m_stream ++ "M3" ++ "\n" }
  | gcode.move x y =>
    { m_stream := v.m_stream ++ "G0 X" ++ fmt x ++ " Y" ++ fmt y ++ "\n" }
  | gcode.power duty => { m_stream := v.m_stream ++ "S" ++ toString duty ++ "\n" }
  | gcode.monostate => v

/-- The function `generate_gcode` (lines 230 to 239): the text written to the file by
visiting every instruction in order. The directory only names the file and is left
out. -/
def generate_gcode (fmt : Int → String) (gcodes : gcodes) : String :=
  (gcodes.foldl (gcode_generator.visit fmt) { m_stream := "" }).m_stream

/-- The line the specification table of section 4.2 gives for an instruction, without
its line break. The table has no row for `monostate`. -/
def rendered_line (fmt : Int → String) : gcode → String
  | gcode.laser_on => "M3"
  | gcode.laser_off => "M5"
  | gcode.home => "G0 X0 Y0"
  | gcode.dwell delay => "G4 P0.00" ++ toString delay
  | gcode.move x y => "G0 X" ++ fmt x ++ " Y" ++ fmt y
  | gcode.power duty => "S" ++ toString duty
  | gcode.monostate => ""

/-- The text the specification describes: one line per instruction, in order, each
ended by a line break. -/
def rendered_text (fmt : Int → String) (gcodes : gcodes) : String :=
  String.join (gcodes.map (fun g => rendered_line fmt g ++ "\n"))

/-- The line break character. -/
def line_break : Char := Char.ofNat 10

/-- Number of line breaks in a text. -/
def line_count (s : String) : Nat := s.data.count line_break

/-- One call made on the serial port object. -/
inductive port_call where
  | port_open
  | write (bytes : String)
  | waitForBytesWritten
  | waitForReadyRead
  | readLine
  deriving DecidableEq, Repr

/-- Whether a call is a `write`. -/
def port_call.is_write : port_call → Bool
  | port_call.write _ => true
  | _ => false

/-- Whether a call is a `readLine`. -/
def port_call.is_read : port_call → Bool
  | port_call.readLine => true
  | _ => false

/-- The serial channel as an explicit state. `can_open` says whether the device can be
opened; `is_open` is the state of the port object; `wire` holds the bytes written to
the channel; `rx` holds the bytes the device sent back that are not read yet;
`replies` are the results of `readLine`; `calls` is the trace of calls made.
The device echoes back every byte it receives. -/
structure QSerialPort where
  can_open : Bool
  is_open : Bool
  wire : String
  rx : String
  replies : List String
  calls : List port_call
  deriving DecidableEq

/-- A port object right after construction, not open. -/
def QSerialPort.init (can_open : Bool) : QSerialPort :=
  { can_open := can_open, is_open := false, wire := "", rx := "", replies := [], calls := [] }

/-- The call `open`: succeeds exactly when the device can be opened. -/
def QSerialPort.open_port (p : QSerialPort) : QSerialPort :=
  { p with is_open := p.can_open, calls := p.calls ++ [port_call.port_open] }

/-- The call `write`: on an open port the bytes go to the channel and the device
echoes them; on a port that is not open the call is rejected and nothing is
written. -/
def QSerialPort.write (p : QSerialPort) (bytes : String) : QSerialPort :=
  if p.is_open then
    { p with wire := p.wire ++ bytes, rx := p.rx ++ bytes,
             calls := p.calls ++ [port_call.write bytes] }
  else
    { p with calls := p.calls ++ [port_call.write bytes] }

/-- The call `waitForBytesWritten`. -/
def QSerialPort.waitForBytesWritten (p : QSerialPort) : QSerialPort :=
  { p with calls := p.calls ++ [port_call.waitForBytesWritten] }

/-- The call `waitForReadyRead`. -/
def QSerialPort.waitForReadyRead (p : QSerialPort) : QSerialPort :=
  { p with calls := p.calls ++ [port_call.waitForReadyRead] }

/-- Splits received bytes after the first line break: the line with its line break,
and the rest. -/
def take_line : List Char → List Char × List Char
  | [] => ([], [])
  | c :: cs =>
    if c = line_break then ([c], cs)
    else ((c :: (take_line cs).1), (take_line cs).2)

/-- The call `readLine`: on an open port it takes one line from the received bytes; on
a port that is not open it returns an empty reply. -/
def QSerialPort.readLine (p : QSerialPort) : QSerialPort :=
  if p.is_open then
    { p with rx := String.mk (take_line p.rx.data).2,
             replies := p.replies ++ [String.mk (take_line p.rx.data).1],
             calls := p.calls ++ [port_call.readLine] }
  else
    { p with replies := p.replies ++ [""], calls := p.calls ++ [port_call.readLine] }

/-- The conversion `QString::toLatin1`: a character outside Latin-1 becomes a question
mark. -/
def toLatin1 (line : String) : String :=
  String.mk (line.data.map (fun c => if c.toNat < 256 then c else Char.ofNat 63))

/-- The body of the loop of `MainWindow::print` (lines 305 to 312) for one line of
the file. The two texts printed to standard output are not modelled. -/
def send_line (port : QSerialPort) (line : String) : QSerialPort :=
  QSerialPort.readLine
    (QSerialPort.waitForReadyRead
      (QSerialPort.waitForBytesWritten
        (QSerialPort.write (QSerialPort.write port (toLatin1 line)) "\n\r")))

/-- The device session of `MainWindow::print` (lines 299 to 313): the port is opened,
the result of `open` is not looked at, and every line of the file is sent. `lines`
is what `QTextStream::readLine` yields for the file. -/
def MainWindow.print (can_open : Bool) (lines : List String) : QSerialPort :=
  lines.foldl send_line (QSerialPort.open_port (QSerialPort.init can_open))

/-- The calls the loop body makes for one line. -/
def line_calls (line : String) : List port_call :=
  [port_call.write (toLatin1 line), port_call.write "\n\r", port_call.waitForBytesWritten,
    port_call.waitForReadyRead, port_call.readLine]

/-! Arithmetic of the casts. -/

theorem to_i16_of_range (v : Int) (h0 : -32768 ≤ v) (h1 : v < 32768) : to_i16 v = v := by
  unfold to_i16
  simp only
  split <;> omega

theorem pixel_duty_eq (color : Nat) :
    pixel_duty color
      = 1000 - (((color >>> 15) % 256 : Nat) : Int) - (((color >>> 8) % 256 : Nat) : Int)
          - ((color % 256 : Nat) : Int) := by
  unfold pixel_duty to_u8
  simp only
  apply to_i16_of_range <;> omega

theorem pixel_duty_bounds (color : Nat) : 235 ≤ pixel_duty color ∧ pixel_duty color ≤ 1000 := by
  rw [pixel_duty_eq]
  omega

/-! Lists built from blocks of equal length. -/

theorem length_flatMap_range {α : Type} (g : Nat → List α) (c : Nat)
    (hg : ∀ i, (g i).length = c) (n : Nat) : ((List.range n).flatMap g).length = n * c := by
  induction n with
  | zero => simp
  | succ n ih =>
    rw [List.range_succ, List.flatMap_append, List.length_append, ih]
    simp [hg, Nat.succ_mul]

theorem getElem?_flatMap_range {α : Type} (g : Nat → List α) (c : Nat)
    (hg : ∀ i, (g i).length = c) (n i j : Nat) (hi : i < n) (hj : j < c) :
    ((List.range n).flatMap g)[i * c + j]? = (g i)[j]? := by
  induction n with
  | zero => omega
  | succ n ih =>
    rw [List.range_succ, List.flatMap_append]
    have hlen := length_flatMap_range g c hg n
    by_cases hin : i < n
    · have hlt : i * c + j < ((List.range n).flatMap g).length := by
        rw [hlen]
        calc i * c + j < i * c + c := by omega
          _ = (i + 1) * c := by ring
          _ ≤ n * c := Nat.mul_le_mul_right c hin
      rw [List.getElem?_append_left hlt]
      exact ih hin
    · have hie : i = n := by omega
      subst hie
      rw [List.getElem?_append_right (by rw [hlen]; omega), hlen]
      simp

/-! The loops in closed form. -/

theorem pixel_loop_eq (data : List Nat) (y : Nat) (n x : Nat) (st : gen_state)
    (hlen : st.index + n ≤ data.length) :
    pixel_loop data y n x st
      = some { ret := st.ret ++ (List.range n).flatMap
                 (fun i => pixel_group (x + i) y (data.getD (st.index + i) 0)),
               index := st.index + n,
               progress := st.progress } := by
  induction n generalizing x st with
  | zero => simp [pixel_loop]
  | succ n ih =>
    have hidx : st.index < data.length := by omega
    have hget : data[st.index]? = some (data.getD st.index 0) := by
      rw [List.getD_eq_getElem?_getD, List.getElem?_eq_getElem hidx]
      simp
    rw [pixel_loop]
    simp only [hget]
    rw [ih _ _ (by simp only; omega)]
    simp only [List.range_succ_eq_map, List.flatMap_cons, List.flatMap_map, Function.comp,
      List.append_assoc, Nat.add_zero, Nat.add_assoc, Nat.add_comm 1, Nat.succ_eq_add_one]

theorem row_loop_eq (data : List Nat) (w h : Nat) (n y : Nat) (st : gen_state)
    (hlen : st.index + n * w ≤ data.length) :
    row_loop data w h n y st
      = some { ret := st.ret ++ (List.range n).flatMap (fun j => (List.range w).flatMap
                 (fun i => pixel_group i (y + j) (data.getD (st.index + j * w + i) 0))),
               index := st.index + n * w,
               progress := st.progress ++ (List.range n).map
                 (fun j => ((y + j : Nat) : ℚ) / (h : ℚ)) } := by
  induction n generalizing y st with
  | zero => simp [row_loop]
  | succ n ih =>
    have hmul : (n + 1) * w = w + n * w := by ring
    rw [row_loop, pixel_loop_eq data y w 0 st (by omega)]
    simp only
    rw [ih _ _ (by simp only; omega)]
    simp only [List.range_succ_eq_map, List.flatMap_cons, List.flatMap_map, Function.comp,
      Function.comp_def, List.map_cons, List.map_map, List.append_assoc, Nat.add_zero, Nat.zero_add,
      Nat.zero_mul, Nat.add_assoc, Nat.add_comm 1, Nat.succ_eq_add_one, hmul,
      List.singleton_append, Nat.add_mul, Nat.one_mul, Nat.add_comm w]

theorem semi_gcode_generator_eq (data : List Nat) (w h : Nat) (hlen : h * w ≤ data.length) :
    semi_gcode_generator data w h
      = some { ret := [gcode.home, gcode.power 0, gcode.laser_on]
                 ++ (List.range h).flatMap (fun y => (List.range w).flatMap
                      (fun x => pixel_group x y (data.getD (y * w + x) 0)))
                 ++ [gcode.power 0, gcode.laser_off, gcode.home],
               index := h * w,
               progress := 0 :: (List.range h).map (fun (y : Nat) => (y : ℚ) / (h : ℚ)) ++ [1] } := by
  unfold semi_gcode_generator
  simp only
  rw [row_loop_eq _ _ _ _ _ _ (by simp only; omega)]
  simp only [Nat.zero_add, List.cons_append, List.nil_append, List.append_assoc]

theorem pixel_group_length (x y color : Nat) : (pixel_group x y color).length = 4 := rfl

theorem body_getElem? (data : List Nat) (w h x y j : Nat) (hx : x < w) (hy : y < h)
    (hj : j < 4) :
    ([gcode.home, gcode.power 0, gcode.laser_on]
        ++ (List.range h).flatMap (fun y => (List.range w).flatMap
              (fun x => pixel_group x y (data.getD (y * w + x) 0)))
        ++ [gcode.power 0, gcode.laser_off, gcode.home])[3 + 4 * (y * w + x) + j]?
      = (pixel_group x y (data.getD (y * w + x) 0))[j]? := by
  have hrow : ∀ y, ((List.range w).flatMap
      (fun x => pixel_group x y (data.getD (y * w + x) 0))).length = w * 4 :=
    fun y => length_flatMap_range _ 4 (fun _ => pixel_group_length _ _ _) w
  have hbody := length_flatMap_range _ (w * 4) hrow h
  have hxj : x * 4 + j < w * 4 := by omega
  have hidx : 3 + 4 * (y * w + x) + j = 3 + (y * (w * 4) + (x * 4 + j)) := by ring
  have hlt : y * (w * 4) + (x * 4 + j) < h * (w * 4) := by
    calc y * (w * 4) + (x * 4 + j) < y * (w * 4) + w * 4 := by omega
      _ = (y + 1) * (w * 4) := by ring
      _ ≤ h * (w * 4) := Nat.mul_le_mul_right _ hy
  rw [hidx, List.append_assoc, List.getElem?_append_right (by simp)]
  simp only [List.length_cons, List.length_nil, Nat.zero_add, Nat.reduceAdd,
    Nat.add_sub_cancel_left]
  rw [List.getElem?_append_left (by rw [hbody]; exact hlt),
    getElem?_flatMap_range _ (w * 4) hrow h y (x * 4 + j) hy hxj,
    getElem?_flatMap_range _ 4 (fun _ => pixel_group_length _ _ _) w x j hx hj]

theorem ret_length (data : List Nat) (w h : Nat) :
    ([gcode.home, gcode.power 0, gcode.laser_on]
        ++ (List.range h).flatMap (fun y => (List.range w).flatMap
              (fun x => pixel_group x y (data.getD (y * w + x) 0)))
        ++ [gcode.power 0, gcode.laser_off, gcode.home]).length = 6 + 4 * w * h := by
  have hrow : ∀ y, ((List.range w).flatMap
      (fun x => pixel_group x y (data.getD (y * w + x) 0))).length = w * 4 :=
    fun y => length_flatMap_range _ 4 (fun _ => pixel_group_length _ _ _) w
  have hbody := length_flatMap_range _ (w * 4) hrow h
  simp only [List.length_append, hbody, List.length_cons, List.length_nil]
  ring

theorem pixel_index_lt (w h x y : Nat) (hx : x < w) (hy : y < h) : y * w + x < w * h := by
  calc y * w + x < y * w + w := by omega
    _ = w * (y + 1) := by ring
    _ ≤ w * h := Nat.mul_le_mul_left _ hy

/-- C1 (amended). For any `w, h > 0` and any buffer of exactly `w * h` pixels the
generator returns, and for every `x < w` and `y < h`, with `k = y * w + x`, the
instructions at positions `3 + 4k` to `3 + 4k + 3` are `Move`, `Power` with the duty of
pixel `k`, `Dwell 1` and `Power 0`. The fields of the `Move` are `x` and `y` converted
to `i16`; they have the numeric values of the column and the row whenever both are
below 32768. -/
theorem semi_gcode_generator_row_major (data : List Nat) (w h : Nat) (_hw : 0 < w)
    (_hh : 0 < h) (hlen : data.length = w * h) :
    ∃ st, semi_gcode_generator data w h = some st ∧
      ∀ x y, x < w → y < h →
        ∃ p, data[y * w + x]? = some p ∧
          st.ret[3 + 4 * (y * w + x)]? = some (gcode.move (to_i16 x) (to_i16 y)) ∧
          (x < 32768 → y < 32768 →
            st.ret[3 + 4 * (y * w + x)]? = some (gcode.move x y)) ∧
          st.ret[3 + 4 * (y * w + x) + 1]? = some (gcode.power (pixel_duty p)) ∧
          st.ret[3 + 4 * (y * w + x) + 2]? = some (gcode.dwell 1) ∧
          st.ret[3 + 4 * (y * w + x) + 3]? = some (gcode.power 0) := by
  refine ⟨_, semi_gcode_generator_eq data w h (by rw [hlen, Nat.mul_comm]), ?_⟩
  intro x y hx hy
  have hk : y * w + x < data.length := hlen ▸ pixel_index_lt w h x y hx hy
  refine ⟨data.getD (y * w + x) 0, ?_, ?_, ?_, ?_, ?_, ?_⟩
  · rw [List.getD_eq_getElem?_getD, List.getElem?_eq_getElem hk]
    simp
  · have := body_getElem? data w h x y 0 hx hy (by omega)
    simpa [pixel_group] using this
  · intro hx2 hy2
    have := body_getElem? data w h x y 0 hx hy (by omega)
    simpa [pixel_group, to_i16_of_range x (by omega) (by omega),
      to_i16_of_range y (by omega) (by omega)] using this
  · simpa [pixel_group] using body_getElem? data w h x y 1 hx hy (by omega)
  · simpa [pixel_group] using body_getElem? data w h x y 2 hx hy (by omega)
  · simpa [pixel_group] using body_getElem? data w h x y 3 hx hy (by omega)

theorem getD_eq_of_lt (data : List Nat) (k : Nat) (hk : k < data.length) :
    data[k]? = some (data.getD k 0) := by
  rw [List.getD_eq_getElem?_getD, List.getElem?_eq_getElem hk]
  simp

theorem move_at (data : List Nat) (w h x y : Nat) (hlen : h * w ≤ data.length)
    (hx : x < w) (hy : y < h) :
    ∃ st, semi_gcode_generator data w h = some st ∧
      st.ret[3 + 4 * (y * w + x)]? = some (gcode.move (to_i16 x) (to_i16 y)) := by
  refine ⟨_, semi_gcode_generator_eq data w h hlen, ?_⟩
  simpa [pixel_group] using body_getElem? data w h x y 0 hx hy (by omega)

/-- C1 (counterexample). With `w = 32769`, `h = 1` and 32769 pixels, the instruction
for column `x = 32768` of row 0 is `Move` with `x` field `-32768`, not `32768`. -/
theorem semi_gcode_generator_move_wraps :
    ∃ st, semi_gcode_generator (List.replicate 32769 0) 32769 1 = some st ∧
      st.ret[3 + 4 * (0 * 32769 + 32768)]? = some (gcode.move (-32768) 0) ∧
      st.ret[3 + 4 * (0 * 32769 + 32768)]? ≠ some (gcode.move 32768 0) := by
  obtain ⟨st, hst, hmove⟩ := move_at (List.replicate 32769 0) 32769 1 32768 0
    (by rw [List.length_replicate]) (by decide) (by decide)
  have hx : to_i16 ((32768 : Nat) : Int) = -32768 := by decide
  have hy : to_i16 ((0 : Nat) : Int) = 0 := by decide
  rw [hx, hy] at hmove
  refine ⟨st, hst, hmove, ?_⟩
  rw [hmove]
  decide

/-- C2. For any `w, h > 0` and any buffer of exactly `w * h` pixels the generator
returns a sequence of length `6 + 4 * w * h`: the header `Home, Power 0, LaserOn`,
then `4 * w * h` instructions, then the trailer `Power 0, LaserOff, Home`. -/
theorem semi_gcode_generator_length (data : List Nat) (w h : Nat) (_hw : 0 < w)
    (_hh : 0 < h) (hlen : data.length = w * h) :
    ∃ st body, semi_gcode_generator data w h = some st ∧
      st.ret = [gcode.home, gcode.power 0, gcode.laser_on] ++ body
                ++ [gcode.power 0, gcode.laser_off, gcode.home] ∧
      body.length = 4 * w * h ∧
      st.ret.length = 6 + 4 * w * h := by
  refine ⟨_, _, semi_gcode_generator_eq data w h (by rw [hlen, Nat.mul_comm]), rfl, ?_,
    ret_length data w h⟩
  have hrow : ∀ y, ((List.range w).flatMap
      (fun x => pixel_group x y (data.getD (y * w + x) 0))).length = w * 4 :=
    fun y => length_flatMap_range _ 4 (fun _ => pixel_group_length _ _ _) w
  rw [length_flatMap_range _ (w * 4) hrow h]
  ring

/-- C3. For the pixel `p` at column `x` of row `y`, the `Power` instruction emitted for
it has duty exactly `1000 - c1 - c2 - c3` with `c1 = (p >> 15) mod 256`,
`c2 = (p >> 8) mod 256` and `c3 = p mod 256`, and the conversion of that value to
`i16` leaves it unchanged. -/
theorem semi_gcode_generator_duty (data : List Nat) (w h x y : Nat) (hx : x < w)
    (hy : y < h) (hlen : data.length = w * h) :
    ∃ st p, semi_gcode_generator data w h = some st ∧
      data[y * w + x]? = some p ∧
      st.ret[3 + 4 * (y * w + x) + 1]?
        = some (gcode.power (1000 - (((p >>> 15) % 256 : Nat) : Int)
            - (((p >>> 8) % 256 : Nat) : Int) - ((p % 256 : Nat) : Int))) ∧
      to_i16 (1000 - (((p >>> 15) % 256 : Nat) : Int)
            - (((p >>> 8) % 256 : Nat) : Int) - ((p % 256 : Nat) : Int))
        = 1000 - (((p >>> 15) % 256 : Nat) : Int)
            - (((p >>> 8) % 256 : Nat) : Int) - ((p % 256 : Nat) : Int) := by
  have hk : y * w + x < data.length := hlen ▸ pixel_index_lt w h x y hx hy
  refine ⟨_, data.getD (y * w + x) 0,
    semi_gcode_generator_eq data w h (by rw [hlen, Nat.mul_comm]),
    getD_eq_of_lt data _ hk, ?_, ?_⟩
  · rw [← pixel_duty_eq]
    simpa [pixel_group] using body_getElem? data w h x y 1 hx hy (by omega)
  · apply to_i16_of_range <;> omega

/-- C4. For `w = 0` or `h = 0` and any buffer, the generator returns exactly
`Home, Power 0, LaserOn, Power 0, LaserOff, Home` and reads no pixel: the read cursor
stays at 0 and the run is the same on the empty buffer. -/
theorem semi_gcode_generator_empty (data : List Nat) (w h : Nat) (hz : w = 0 ∨ h = 0) :
    ∃ st, semi_gcode_generator data w h = some st ∧
      st.ret = [gcode.home, gcode.power 0, gcode.laser_on, gcode.power 0, gcode.laser_off,
        gcode.home] ∧
      st.index = 0 ∧
      semi_gcode_generator [] w h = some st := by
  have hwh : h * w = 0 := by
    rcases hz with hz | hz <;> simp [hz]
  have hbody : ∀ d : List Nat, (List.range h).flatMap (fun y => (List.range w).flatMap
      (fun x => pixel_group x y (d.getD (y * w + x) 0))) = [] := by
    intro d
    apply List.eq_nil_of_length_eq_zero
    have hrow : ∀ y, ((List.range w).flatMap
        (fun x => pixel_group x y (d.getD (y * w + x) 0))).length = w * 4 :=
      fun y => length_flatMap_range _ 4 (fun _ => pixel_group_length _ _ _) w
    rw [length_flatMap_range _ (w * 4) hrow h, ← Nat.mul_assoc, hwh]
  refine ⟨_, semi_gcode_generator_eq data w h (by omega), ?_, hwh, ?_⟩
  · simp only [hbody data]
    rfl
  · rw [semi_gcode_generator_eq [] w h (by omega)]
    simp only [hbody data, hbody []]

theorem progress_mem_bounds (h : Nat) (v : ℚ)
    (hv : v ∈ (0 : ℚ) :: (List.range h).map (fun (y : Nat) => (y : ℚ) / (h : ℚ)) ++ [1]) :
    0 ≤ v ∧ v ≤ 1 := by
  simp only [List.cons_append, List.mem_cons, List.mem_append, List.mem_map, List.mem_range,
    List.mem_singleton, List.not_mem_nil, or_false] at hv
  rcases hv with rfl | ⟨y, hy, rfl⟩ | rfl
  · exact ⟨le_refl _, zero_le_one⟩
  · have hpos : (0 : ℚ) < (h : ℚ) := by exact_mod_cast (by omega : 0 < h)
    have hle : (y : ℚ) ≤ (h : ℚ) := by exact_mod_cast hy.le
    exact ⟨div_nonneg (Nat.cast_nonneg y) hpos.le, (div_le_one hpos).mpr hle⟩
  · exact ⟨zero_le_one, le_refl _⟩

theorem progress_pairwise (h : Nat) :
    ((0 : ℚ) :: (List.range h).map (fun (y : Nat) => (y : ℚ) / (h : ℚ)) ++ [1]).Pairwise
      (fun a b => a ≤ b) := by
  rw [List.cons_append, List.pairwise_cons]
  constructor
  · intro v hv
    exact (progress_mem_bounds h v (by rw [List.cons_append]; exact List.mem_cons_of_mem _ hv)).1
  · rw [List.pairwise_append]
    refine ⟨?_, List.pairwise_singleton _ _, ?_⟩
    · rw [List.pairwise_map]
      refine List.Pairwise.imp ?_ (List.pairwise_lt_range h)
      intro a b hab
      have hab2 : (a : ℚ) ≤ (b : ℚ) := by exact_mod_cast hab.le
      exact div_le_div_of_nonneg_right hab2 (Nat.cast_nonneg h)
    · intro a ha b hb
      rw [List.mem_singleton] at hb
      subst hb
      exact (progress_mem_bounds h a (by
        rw [List.cons_append]
        exact List.mem_cons_of_mem _ (List.mem_append_left _ ha))).2

/-- C8. For every `w` and `h`, the values stored to the progress cell (the reset, one
value `y / h` after each row, the final value), as exact fractions, all lie in
`[0, 1]`, never decrease from one store to the next, and the last one is exactly 1. -/
theorem semi_gcode_generator_progress (data : List Nat) (w h : Nat)
    (hlen : data.length = w * h) :
    ∃ st, semi_gcode_generator data w h = some st ∧
      (∀ v ∈ st.progress, 0 ≤ v ∧ v ≤ 1) ∧
      st.progress.Chain' (fun a b => a ≤ b) ∧
      st.progress.getLast? = some 1 := by
  refine ⟨_, semi_gcode_generator_eq data w h (by rw [hlen, Nat.mul_comm]), ?_, ?_, ?_⟩
  · intro v hv
    exact progress_mem_bounds h v hv
  · exact List.Pairwise.chain' (progress_pairwise h)
  · simp only
    rw [List.getLast?_append]
    rfl

/-- C9 (counterexample). With `w = 0` and `h = 2` the values stored to the progress
cell are `0, 0, 1/2, 1`, not `0, 1`. -/
theorem semi_gcode_generator_progress_zero_width :
    ∃ st, semi_gcode_generator [] 0 2 = some st ∧
      st.progress = [0, 0, 1 / 2, 1] ∧ st.progress ≠ [0, 1] := by
  refine ⟨_, semi_gcode_generator_eq [] 0 2 (by decide), ?_, ?_⟩
  · simp [List.range_succ]
  · simp [List.range_succ]

/-- C9 (amended). For every `w` and `h` with `w * h = 0` the values stored to the
progress cell are `0`, then `y / h` for each row `y < h`, then `1`. When `h = 0` this
is exactly `0, 1` with no store in between; when `w = 0` and `h > 0` there are `h`
stores in between. -/
theorem semi_gcode_generator_progress_empty (data : List Nat) (w h : Nat)
    (hz : w * h = 0) :
    ∃ st, semi_gcode_generator data w h = some st ∧
      st.progress = 0 :: (List.range h).map (fun (y : Nat) => (y : ℚ) / (h : ℚ)) ++ [1] ∧
      (h = 0 → st.progress = [0, 1]) ∧
      st.progress.length = h + 2 := by
  refine ⟨_, semi_gcode_generator_eq data w h (by rw [Nat.mul_comm, hz]; exact Nat.zero_le _),
    rfl, ?_, ?_⟩
  · intro hh
    subst hh
    rfl
  · simp

/-- C10. For every buffer of `w * h` pixels, every `Power` instruction in the returned
sequence has a duty that is 0 or lies between 235 and 1000; in particular it is never
negative and always within the range of `i16`. -/
theorem semi_gcode_generator_power_range (data : List Nat) (w h : Nat)
    (hlen : data.length = w * h) :
    ∃ st, semi_gcode_generator data w h = some st ∧
      ∀ d, gcode.power d ∈ st.ret →
        (d = 0 ∨ (235 ≤ d ∧ d ≤ 1000)) ∧ 0 ≤ d ∧ -32768 ≤ d ∧ d ≤ 32767 := by
  refine ⟨_, semi_gcode_generator_eq data w h (by rw [hlen, Nat.mul_comm]), ?_⟩
  intro d hd
  have hcase : d = 0 ∨ (235 ≤ d ∧ d ≤ 1000) := by
    simp only [List.mem_append, List.mem_cons, List.mem_flatMap, List.mem_range,
      pixel_group, List.mem_singleton, List.not_mem_nil, or_false, gcode.power.injEq,
      reduceCtorEq, false_or, or_false, false_and, exists_false] at hd
    rcases hd with (h0 | ⟨y, _, x, _, h1 | h0⟩) | h0
    · exact Or.inl h0
    · right
      rw [h1]
      exact pixel_duty_bounds _
    · exact Or.inl h0
    · exact Or.inl h0
  refine ⟨hcase, ?_⟩
  rcases hcase with h0 | ⟨h1, h2⟩ <;> omega

/-! The code emitter. -/

theorem digitChar_ne_line_break (n : Nat) : Nat.digitChar (n % 10) ≠ line_break := by
  have key : ∀ m, m < 10 → Nat.digitChar m ≠ line_break := by decide
  exact key _ (Nat.mod_lt _ (by decide))

theorem toDigitsCore_no_line_break (fuel n : Nat) (ds : List Char)
    (hds : line_break ∉ ds) : line_break ∉ Nat.toDigitsCore 10 fuel n ds := by
  induction fuel generalizing n ds with
  | zero => simpa [Nat.toDigitsCore] using hds
  | succ fuel ih =>
    have hcons : line_break ∉ Nat.digitChar (n % 10) :: ds := by
      intro hmem
      rcases List.mem_cons.mp hmem with heq | hmem
      · exact digitChar_ne_line_break _ heq.symm
      · exact hds hmem
    rw [Nat.toDigitsCore]
    split
    · exact hcons
    · exact ih _ _ hcons

theorem nat_toString_no_line_break (n : Nat) : line_break ∉ (toString n).data := by
  show line_break ∉ (Nat.repr n).data
  unfold Nat.repr Nat.toDigits
  exact toDigitsCore_no_line_break _ _ _ (List.not_mem_nil _)

theorem int_toString_no_line_break (d : Int) : line_break ∉ (toString d).data := by
  cases d with
  | ofNat m => exact nat_toString_no_line_break m
  | negSucc m =>
    show line_break ∉ ("-" ++ toString (Nat.succ m)).data
    rw [String.data_append, List.mem_append, not_or]
    exact ⟨by decide, nat_toString_no_line_break _⟩

theorem rendered_line_no_line_break (fmt : Int → String)
    (hfmt : ∀ v, line_break ∉ (fmt v).data) (g : gcode) :
    line_break ∉ (rendered_line fmt g).data := by
  cases g with
  | monostate => simp only [rendered_line]; decide
  | laser_on => simp only [rendered_line]; decide
  | laser_off => simp only [rendered_line]; decide
  | home => simp only [rendered_line]; decide
  | dwell delay =>
    simp only [rendered_line, String.data_append, List.mem_append, not_or]
    exact ⟨by decide, int_toString_no_line_break _⟩
  | move x y =>
    simp only [rendered_line, String.data_append, List.mem_append, not_or]
    exact ⟨⟨⟨by decide, hfmt x⟩, by decide⟩, hfmt y⟩
  | power duty =>
    simp only [rendered_line, String.data_append, List.mem_append, not_or]
    exact ⟨by decide, int_toString_no_line_break _⟩

theorem string_join_cons (s : String) (ss : List String) :
    String.join (s :: ss) = s ++ String.join ss := by
  apply String.ext
  simp

theorem visit_stream (fmt : Int → String) (v : gcode_generator) (g : gcode)
    (hg : g ≠ gcode.monostate) :
    (gcode_generator.visit fmt v g).m_stream
      = v.m_stream ++ (rendered_line fmt g ++ "\n") := by
  cases g <;> simp [gcode_generator.visit, rendered_line, String.append_assoc] at hg ⊢

theorem foldl_visit_stream (fmt : Int → String) (gs : gcodes) (v : gcode_generator)
    (hkinds : ∀ g ∈ gs, g ≠ gcode.monostate) :
    (gs.foldl (gcode_generator.visit fmt) v).m_stream
      = v.m_stream ++ rendered_text fmt gs := by
  induction gs generalizing v with
  | nil =>
    apply String.ext
    simp [rendered_text]
  | cons g gs ih =>
    rw [List.foldl_cons, ih _ (fun g1 hg1 => hkinds g1 (List.mem_cons_of_mem _ hg1)),
      visit_stream fmt v g (hkinds g (List.mem_cons_self _ _))]
    unfold rendered_text
    rw [List.map_cons, string_join_cons, String.append_assoc]

theorem line_count_rendered_text (fmt : Int → String)
    (hfmt : ∀ v, line_break ∉ (fmt v).data) (gs : gcodes) :
    line_count (rendered_text fmt gs) = gs.length := by
  induction gs with
  | nil => rfl
  | cons g gs ih =>
    unfold rendered_text line_count at ih ⊢
    rw [List.map_cons, string_join_cons, String.data_append, List.count_append, ih,
      String.data_append, List.count_append,
      List.count_eq_zero.mpr (rendered_line_no_line_break fmt hfmt g), List.length_cons]
    have hone : List.count line_break ("\n" : String).data = 1 := by decide
    omega

/-- C5. For every sequence made of the six instruction kinds, the text written by
`generate_gcode` is the concatenation, in order, of one line per instruction, each
ended by a line break, where the line is the one of the table (`M3`, `M5`,
`G0 X0 Y0`, `S` and the duty, `G4 P0.00` and the delay, `G0 X.. Y..`). When the
rendering of real numbers emits no line break, no line contains one and the number of
line breaks in the text equals the number of instructions. `Dwell 1` gives
`G4 P0.001` and `Dwell 10` gives `G4 P0.0010`. -/
theorem generate_gcode_lines (fmt : Int → String) (gs : gcodes)
    (hkinds : ∀ g ∈ gs, g ≠ gcode.monostate)
    (hfmt : ∀ v, line_break ∉ (fmt v).data) :
    generate_gcode fmt gs = String.join (gs.map (fun g => rendered_line fmt g ++ "\n")) ∧
      (∀ g ∈ gs, line_break ∉ (rendered_line fmt g).data) ∧
      line_count (generate_gcode fmt gs) = gs.length ∧
      rendered_line fmt (gcode.dwell 1) = "G4 P0.001" ∧
      rendered_line fmt (gcode.dwell 10) = "G4 P0.0010" := by
  have htext : generate_gcode fmt gs = rendered_text fmt gs := by
    unfold generate_gcode
    rw [foldl_visit_stream fmt gs _ hkinds]
    apply String.ext
    simp
  refine ⟨htext, fun g _ => rendered_line_no_line_break fmt hfmt g, ?_, ?_, ?_⟩
  · rw [htext]
    exact line_count_rendered_text fmt hfmt gs
  · simp only [rendered_line]
    decide
  · simp only [rendered_line]
    decide

/-! The device session. -/

theorem send_line_calls (p : QSerialPort) (line : String) :
    (send_line p line).calls = p.calls ++ line_calls line := by
  unfold send_line line_calls QSerialPort.readLine QSerialPort.waitForReadyRead
    QSerialPort.waitForBytesWritten QSerialPort.write
  by_cases hopen : p.is_open <;> simp [hopen]

theorem send_line_is_open (p : QSerialPort) (line : String) :
    (send_line p line).is_open = p.is_open := by
  unfold send_line QSerialPort.readLine QSerialPort.waitForReadyRead
    QSerialPort.waitForBytesWritten QSerialPort.write
  by_cases hopen : p.is_open <;> simp [hopen]

theorem send_line_replies (p : QSerialPort) (line : String) :
    (send_line p line).replies.length = p.replies.length + 1 := by
  unfold send_line QSerialPort.readLine QSerialPort.waitForReadyRead
    QSerialPort.waitForBytesWritten QSerialPort.write
  by_cases hopen : p.is_open <;> simp [hopen]

theorem send_line_wire_closed (p : QSerialPort) (line : String) (hclosed : p.is_open = false) :
    (send_line p line).wire = p.wire := by
  unfold send_line QSerialPort.readLine QSerialPort.waitForReadyRead
    QSerialPort.waitForBytesWritten QSerialPort.write
  simp [hclosed]

theorem send_line_wire_open (p : QSerialPort) (line : String) (hopen : p.is_open = true) :
    (send_line p line).wire = p.wire ++ (toLatin1 line ++ "\n\r") := by
  unfold send_line QSerialPort.readLine QSerialPort.waitForReadyRead
    QSerialPort.waitForBytesWritten QSerialPort.write
  simp [hopen, String.append_assoc]

theorem foldl_send_line_calls (lines : List String) (p : QSerialPort) :
    (lines.foldl send_line p).calls = p.calls ++ lines.flatMap line_calls := by
  induction lines generalizing p with
  | nil => simp
  | cons l ls ih =>
    rw [List.foldl_cons, ih, send_line_calls, List.flatMap_cons, List.append_assoc]

theorem foldl_send_line_is_open (lines : List String) (p : QSerialPort) :
    (lines.foldl send_line p).is_open = p.is_open := by
  induction lines generalizing p with
  | nil => rfl
  | cons l ls ih => rw [List.foldl_cons, ih, send_line_is_open]

theorem foldl_send_line_replies (lines : List String) (p : QSerialPort) :
    (lines.foldl send_line p).replies.length = p.replies.length + lines.length := by
  induction lines generalizing p with
  | nil => rfl
  | cons l ls ih =>
    rw [List.foldl_cons, ih, send_line_replies, List.length_cons]
    omega

theorem foldl_send_line_wire_closed (lines : List String) (p : QSerialPort)
    (hclosed : p.is_open = false) : (lines.foldl send_line p).wire = p.wire := by
  induction lines generalizing p with
  | nil => rfl
  | cons l ls ih =>
    rw [List.foldl_cons, ih _ (by rw [send_line_is_open, hclosed]),
      send_line_wire_closed p l hclosed]

theorem foldl_send_line_wire_open (lines : List String) (p : QSerialPort)
    (hopen : p.is_open = true) :
    (lines.foldl send_line p).wire
      = p.wire ++ String.join (lines.map (fun l => toLatin1 l ++ "\n\r")) := by
  induction lines generalizing p with
  | nil =>
    apply String.ext
    simp
  | cons l ls ih =>
    rw [List.foldl_cons, ih _ (by rw [send_line_is_open, hopen]),
      send_line_wire_open p l hopen, List.map_cons, string_join_cons, String.append_assoc]

theorem filter_is_write_line_calls (lines : List String) :
    ((lines.flatMap line_calls).filter port_call.is_write).length = 2 * lines.length := by
  induction lines with
  | nil => rfl
  | cons l ls ih =>
    rw [List.flatMap_cons, List.filter_append, List.length_append, ih, List.length_cons]
    simp [line_calls, port_call.is_write]
    omega

theorem filter_is_read_line_calls (lines : List String) :
    ((lines.flatMap line_calls).filter port_call.is_read).length = lines.length := by
  induction lines with
  | nil => rfl
  | cons l ls ih =>
    rw [List.flatMap_cons, List.filter_append, List.length_append, ih, List.length_cons]
    simp [line_calls, port_call.is_read]
    omega

/-- C6 (counterexample). When the channel cannot be opened the session does not stop:
for the one-line stream `M3` it still makes both write calls, both waits and the read
after the failed `open`. -/
theorem print_continues_after_failed_open :
    (MainWindow.print false ["M3"]).calls
        = [port_call.port_open, port_call.write "M3", port_call.write "\n\r",
            port_call.waitForBytesWritten, port_call.waitForReadyRead, port_call.readLine] ∧
      (MainWindow.print false ["M3"]).calls ≠ [port_call.port_open] := by
  decide

/-- C6 (amended). When the channel cannot be opened, no byte is written to the channel
whatever the stream contains, because every write on the port that is not open is
rejected. The session does not fail or stop: the port stays closed and the loop still
makes its five calls for every line. -/
theorem print_failed_open_sends_nothing (lines : List String) :
    (MainWindow.print false lines).wire = "" ∧
      (MainWindow.print false lines).is_open = false ∧
      (MainWindow.print false lines).calls
        = port_call.port_open :: lines.flatMap line_calls := by
  unfold MainWindow.print
  refine ⟨?_, ?_, ?_⟩
  · rw [foldl_send_line_wire_closed _ _ rfl]
    rfl
  · rw [foldl_send_line_is_open]
    rfl
  · rw [foldl_send_line_calls]
    rfl

/-- C7 (counterexample). Against the echoing channel the one-line stream `M3` makes
two write calls, not one, and one read. -/
theorem print_two_writes_per_line :
    ((MainWindow.print true ["M3"]).calls.filter port_call.is_write).length = 2 ∧
      ((MainWindow.print true ["M3"]).calls.filter port_call.is_read).length = 1 := by
  decide

/-- C7 (amended). Against a channel that echoes every line, for every stream of `N`
lines the trace of the session is `open` followed, for each line in the order of the
stream, by: write of the line, write of the terminator, wait for the bytes to be
written, wait for a reply, read of one line. So there are exactly `2 * N` write calls
and `N` reads, the two writes of a line come before the read of its reply, which comes
before the writes of the next line, and the bytes on the channel are the lines in
order, each followed by the terminator. -/
theorem print_handshake (lines : List String) :
    (MainWindow.print true lines).calls
        = port_call.port_open :: lines.flatMap (fun l =>
            [port_call.write (toLatin1 l), port_call.write "\n\r",
              port_call.waitForBytesWritten, port_call.waitForReadyRead,
              port_call.readLine]) ∧
      ((MainWindow.print true lines).calls.filter port_call.is_write).length
        = 2 * lines.length ∧
      ((MainWindow.print true lines).calls.filter port_call.is_read).length
        = lines.length ∧
      (MainWindow.print true lines).replies.length = lines.length ∧
      (MainWindow.print true lines).wire
        = String.join (lines.map (fun l => toLatin1 l ++ "\n\r")) := by
  have hcalls : (MainWindow.print true lines).calls
      = port_call.port_open :: lines.flatMap line_calls := by
    unfold MainWindow.print
    rw [foldl_send_line_calls]
    rfl
  refine ⟨hcalls, ?_, ?_, ?_, ?_⟩
  · rw [hcalls, List.filter_cons_of_neg (by decide)]
    exact filter_is_write_line_calls lines
  · rw [hcalls, List.filter_cons_of_neg (by decide)]
    exact filter_is_read_line_calls lines
  · unfold MainWindow.print
    rw [foldl_send_line_replies]
    simp [QSerialPort.open_port, QSerialPort.init]
  · unfold MainWindow.print
    rw [foldl_send_line_wire_open _ _ rfl]
    apply String.ext
    simp [QSerialPort.open_port, QSerialPort.init]

/-! Instances of the theorems at concrete inputs. -/

/-- Witness of C1 on a raster of two rows and two columns. -/
theorem semi_gcode_generator_row_major_witness :
    (0 < 2 ∧ 0 < 2 ∧ [4294967295, 0, 8421504, 255].length = 2 * 2) ∧
      ∃ st, semi_gcode_generator [4294967295, 0, 8421504, 255] 2 2 = some st ∧
        ∀ x y : Nat, x < 2 → y < 2 →
          ∃ p, [4294967295, 0, 8421504, 255][y * 2 + x]? = some p ∧
            st.ret[3 + 4 * (y * 2 + x)]? = some (gcode.move (to_i16 x) (to_i16 y)) ∧
            (x < 32768 → y < 32768 →
              st.ret[3 + 4 * (y * 2 + x)]? = some (gcode.move x y)) ∧
            st.ret[3 + 4 * (y * 2 + x) + 1]? = some (gcode.power (pixel_duty p)) ∧
            st.ret[3 + 4 * (y * 2 + x) + 2]? = some (gcode.dwell 1) ∧
            st.ret[3 + 4 * (y * 2 + x) + 3]? = some (gcode.power 0) :=
  ⟨⟨by decide, by decide, rfl⟩,
    semi_gcode_generator_row_major [4294967295, 0, 8421504, 255] 2 2 (by decide) (by decide)
      rfl⟩

/-- Witness of C2 on a raster of one row and three columns. -/
theorem semi_gcode_generator_length_witness :
    (0 < 3 ∧ 0 < 1 ∧ [4294967295, 0, 8421504].length = 3 * 1) ∧
      ∃ st body, semi_gcode_generator [4294967295, 0, 8421504] 3 1 = some st ∧
        st.ret = [gcode.home, gcode.power 0, gcode.laser_on] ++ body
                  ++ [gcode.power 0, gcode.laser_off, gcode.home] ∧
        body.length = 4 * 3 * 1 ∧
        st.ret.length = 6 + 4 * 3 * 1 :=
  ⟨⟨by decide, by decide, rfl⟩,
    semi_gcode_generator_length [4294967295, 0, 8421504] 3 1 (by decide) (by decide) rfl⟩

/-- Witness of C3 at the last pixel of a raster of two rows and two columns. -/
theorem semi_gcode_generator_duty_witness :
    (1 < 2 ∧ 1 < 2 ∧ [4294967295, 0, 8421504, 255].length = 2 * 2) ∧
      ∃ st p, semi_gcode_generator [4294967295, 0, 8421504, 255] 2 2 = some st ∧
        [4294967295, 0, 8421504, 255][1 * 2 + 1]? = some p ∧
        st.ret[3 + 4 * (1 * 2 + 1) + 1]?
          = some (gcode.power (1000 - (((p >>> 15) % 256 : Nat) : Int)
              - (((p >>> 8) % 256 : Nat) : Int) - ((p % 256 : Nat) : Int))) ∧
        to_i16 (1000 - (((p >>> 15) % 256 : Nat) : Int)
              - (((p >>> 8) % 256 : Nat) : Int) - ((p % 256 : Nat) : Int))
          = 1000 - (((p >>> 15) % 256 : Nat) : Int)
              - (((p >>> 8) % 256 : Nat) : Int) - ((p % 256 : Nat) : Int) :=
  ⟨⟨by decide, by decide, rfl⟩,
    semi_gcode_generator_duty [4294967295, 0, 8421504, 255] 2 2 1 1 (by decide) (by decide)
      rfl⟩

/-- Witness of C4 with width 0, height 5 and a buffer that is not empty. -/
theorem semi_gcode_generator_empty_witness :
    ((0 : Nat) = 0 ∨ (5 : Nat) = 0) ∧
      ∃ st, semi_gcode_generator [7, 8] 0 5 = some st ∧
        st.ret = [gcode.home, gcode.power 0, gcode.laser_on, gcode.power 0,
          gcode.laser_off, gcode.home] ∧
        st.index = 0 ∧
        semi_gcode_generator [] 0 5 = some st :=
  ⟨Or.inl rfl, semi_gcode_generator_empty [7, 8] 0 5 (Or.inl rfl)⟩

/-- Witness of C5 on a sequence holding each of the six kinds. -/
theorem generate_gcode_lines_witness :
    (∀ g ∈ [gcode.home, gcode.laser_on, gcode.move 1 2, gcode.power 235, gcode.dwell 10,
        gcode.laser_off], g ≠ gcode.monostate) ∧
      (∀ v : Int, line_break ∉ ((fun (_ : Int) => "0") v).data) ∧
      (generate_gcode (fun _ => "0") [gcode.home, gcode.laser_on, gcode.move 1 2,
            gcode.power 235, gcode.dwell 10, gcode.laser_off]
          = String.join ([gcode.home, gcode.laser_on, gcode.move 1 2, gcode.power 235,
              gcode.dwell 10, gcode.laser_off].map
                (fun g => rendered_line (fun _ => "0") g ++ "\n")) ∧
        (∀ g ∈ [gcode.home, gcode.laser_on, gcode.move 1 2, gcode.power 235,
            gcode.dwell 10, gcode.laser_off],
          line_break ∉ (rendered_line (fun _ => "0") g).data) ∧
        line_count (generate_gcode (fun _ => "0") [gcode.home, gcode.laser_on,
            gcode.move 1 2, gcode.power 235, gcode.dwell 10, gcode.laser_off])
          = [gcode.home, gcode.laser_on, gcode.move 1 2, gcode.power 235, gcode.dwell 10,
              gcode.laser_off].length ∧
        rendered_line (fun _ => "0") (gcode.dwell 1) = "G4 P0.001" ∧
        rendered_line (fun _ => "0") (gcode.dwell 10) = "G4 P0.0010") :=
  ⟨by decide, fun _ => (by decide : line_break ∉ ("0" : String).data),
    generate_gcode_lines (fun _ => "0") [gcode.home, gcode.laser_on, gcode.move 1 2,
      gcode.power 235, gcode.dwell 10, gcode.laser_off] (by decide)
      (fun _ => (by decide : line_break ∉ ("0" : String).data))⟩

/-- Witness of C8 on a raster of two rows and one column. -/
theorem semi_gcode_generator_progress_witness :
    [4294967295, 0].length = 1 * 2 ∧
      ∃ st, semi_gcode_generator [4294967295, 0] 1 2 = some st ∧
        (∀ v ∈ st.progress, 0 ≤ v ∧ v ≤ 1) ∧
        st.progress.Chain' (fun a b => a ≤ b) ∧
        st.progress.getLast? = some 1 :=
  ⟨rfl, semi_gcode_generator_progress [4294967295, 0] 1 2 rfl⟩

/-- Witness of C9 (amended) with width 0 and height 3. -/
theorem semi_gcode_generator_progress_empty_witness :
    0 * 3 = 0 ∧
      ∃ st, semi_gcode_generator [] 0 3 = some st ∧
        st.progress
          = 0 :: (List.range 3).map (fun (y : Nat) => (y : ℚ) / ((3 : Nat) : ℚ)) ++ [1] ∧
        (3 = 0 → st.progress = [0, 1]) ∧
        st.progress.length = 3 + 2 :=
  ⟨rfl, semi_gcode_generator_progress_empty [] 0 3 rfl⟩

/-- Witness of C10 on a raster of two rows and two columns. -/
theorem semi_gcode_generator_power_range_witness :
    [4294967295, 0, 8421504, 255].length = 2 * 2 ∧
      ∃ st, semi_gcode_generator [4294967295, 0, 8421504, 255] 2 2 = some st ∧
        ∀ d, gcode.power d ∈ st.ret →
          (d = 0 ∨ (235 ≤ d ∧ d ≤ 1000)) ∧ 0 ≤ d ∧ -32768 ≤ d ∧ d ≤ 32767 :=
  ⟨rfl, semi_gcode_generator_power_range [4294967295, 0, 8421504, 255] 2 2 rfl⟩
